import Mathlib

/-!
Shallow embedding of the mcard_js content-addressed card store.

The embedding follows the repository sources:
  * `src/core/mcard.js` — `MCard`, `MCardFromData`, `Page`, `CardCollection`;
  * `src/content/model/content_type_detector.js` — `ContentTypeInterpreter`;
  * `src/utils/bufferPolyfill.js` — `SafeBuffer.compare`.
Collaborator modules that the repository imports but whose sources are not
present (`config/config_constants.js` hierarchy and DEFAULT, `core/g_time.js`,
`core/event-producer.js`, `core/hash/validator.js` with its crypto backend,
`engine/sqlite_engine.js`) are modelled from the specification; each such
definition carries a doc comment saying so.

Bytes are modelled as `List Nat` with each element < 256 where it matters;
machine integers do not overflow in any of the embedded code paths.
-/

namespace MCardJS

/-- The closed set of hash algorithm names (`HashAlgorithm` enum in
`config/config_constants.js`, present in the sources as the unnamed part). -/
inductive HashAlg : Type
  | md5
  | sha1
  | sha224
  | sha256
  | sha384
  | sha512
  deriving DecidableEq, Repr

/-- Algorithm name string, as used in `g_time` prefixes and event payloads. -/
def algName : HashAlg → String
  | .md5 => "md5"
  | .sha1 => "sha1"
  | .sha224 => "sha224"
  | .sha256 => "sha256"
  | .sha384 => "sha384"
  | .sha512 => "sha512"

/-- Parse an algorithm name back into the closed set. -/
def parseAlg (s : String) : Option HashAlg :=
  if s = "md5" then some .md5
  else if s = "sha1" then some .sha1
  else if s = "sha224" then some .sha224
  else if s = "sha256" then some .sha256
  else if s = "sha384" then some .sha384
  else if s = "sha512" then some .sha512
  else none

/-- Digest length in bytes per algorithm: the `HASH_LENGTHS` table of
`CardCollection.add` (`src/core/mcard.js`), which the spec's §3 length table
mirrors. -/
def HASH_LENGTHS : HashAlg → Nat
  | .md5 => 16
  | .sha1 => 20
  | .sha224 => 28
  | .sha256 => 32
  | .sha384 => 48
  | .sha512 => 64

/-- Modelled from the spec: `HASH_ALGORITHM_HIERARCHY` lives in
`config/config_constants.js`, which is missing from `src/`; §3 of the spec
orders the closed set `md5 < sha1 < sha224 < sha256 < sha384 < sha512` and
`upgrade(a)` returns the next stronger algorithm, or nothing past the
strongest. -/
def HASH_ALGORITHM_HIERARCHY : HashAlg → Option HashAlg
  | .md5 => some .sha1
  | .sha1 => some .sha224
  | .sha224 => some .sha256
  | .sha256 => some .sha384
  | .sha384 => some .sha512
  | .sha512 => none

/-- Modelled from the spec: `HashAlgorithm.DEFAULT` is defined in the missing
`config/config_constants.js`; the spec pins it to `sha256` via the tests. -/
def DEFAULT_ALG : HashAlg := .sha256

/-- UTF-8 encoding of a single character (standard 1–4 byte encoding, the
same encoding `Buffer.from(s, 'utf-8')` performs in the sources). -/
def encodeChar (c : Char) : List Nat :=
  let n := c.toNat
  if n < 0x80 then [n]
  else if n < 0x800 then [0xC0 + n / 64, 0x80 + n % 64]
  else if n < 0x10000 then [0xE0 + n / 4096, 0x80 + (n / 64) % 64, 0x80 + n % 64]
  else [0xF0 + n / 262144, 0x80 + (n / 4096) % 64, 0x80 + (n / 64) % 64, 0x80 + n % 64]

/-- UTF-8 encoding of a string to bytes, as `SafeBuffer.from(s, 'utf-8')`. -/
def utf8Encode (s : String) : List Nat :=
  s.data.flatMap encodeChar

/-- One lowercase hexadecimal digit character for a value below 16. -/
def hexDigitChar (n : Nat) : Char :=
  if n < 10 then Char.ofNat (48 + n) else Char.ofNat (87 + n)

/-- Lowercase hexadecimal rendering of a byte list, two characters a byte. -/
def hexOfBytes (bs : List Nat) : String :=
  String.mk (bs.flatMap fun b => [hexDigitChar (b / 16 % 16), hexDigitChar (b % 16)])

/-- Mixing step of the stand-in digest compression. -/
def digestMix (acc b : Nat) : Nat :=
  (acc * 131 + b + 1) % 4294967296

/-- Modelled from the spec: the digest service (`core/hash/validator.js` with
its crypto backend) is missing from `src/`; the spec requires a deterministic
digest of the content bytes under the named algorithm whose hex form is
lowercase and whose byte length follows the §3 table. This computable
stand-in satisfies exactly those interface properties. -/
def digestBytes (alg : HashAlg) (bs : List Nat) : List Nat :=
  let seed := bs.foldl digestMix (HASH_LENGTHS alg + 17)
  (List.range (HASH_LENGTHS alg)).map fun i => (seed * (2 * i + 3) + i * i + 7) % 256

/-- Modelled from the spec: lowercase hex digest of a byte string under a
named algorithm (`hashValidator.computeHash` in `src/core/mcard.js`, backend
missing from `src/`). -/
def hexDigest (alg : HashAlg) (bs : List Nat) : String :=
  hexOfBytes (digestBytes alg bs)

/-- Modelled from the spec: `GTime.stamp_now` (`core/g_time.js` missing from
`src/`) returns `algorithm + "|" + iso-utc + "|" + region`, where the region
tag defaults to `"UTC"`. The current wall clock is threaded in as `now`. -/
def GTime_stamp_now (alg : HashAlg) (now : String) (region : String) : String :=
  algName alg ++ "|" ++ now ++ "|" ++ region

/-- Modelled from the spec: `GTime.get_hash_function` recovers the algorithm
field of a GTime string, the part before the first `|` (the whole string
when no separator occurs, as `split` yields). -/
def GTime_get_hash_function (g : String) : String :=
  String.mk (g.data.takeWhile fun c => c != '|')

/-- Decidable equality for `Except` results, by case comparison. -/
instance {ε α : Type} [DecidableEq ε] [DecidableEq α] : DecidableEq (Except ε α) := by
  intro a b
  cases a <;> cases b <;> first
    | (apply isFalse; intro h; exact Except.noConfusion h)
    | (rename_i x y
       exact if h : x = y then isTrue (by rw [h]) else isFalse (by
        intro hc; cases hc; exact h rfl))

/-- Errors raised by card construction (`MCard` constructor and
`MCardFromData` in `src/core/mcard.js`), named after the spec's §7 taxonomy:
`InvalidContent` covers "Content cannot be None", "Content cannot be
undefined.", "Unsupported content type" and the empty-object rejection;
`EmptyContent` is "Content cannot be empty after conversion to Buffer.";
`InvalidArgument` covers the missing hash / g_time checks of
`MCardFromData`. -/
inductive CardErr : Type
  | invalidContent
  | emptyContent
  | invalidArgument
  deriving DecidableEq, Repr

/-- An immutable card: `MCard` of `src/core/mcard.js`. `contentType` is set
only on cards reconstructed from persisted rows (`MCardFromData`). -/
structure MCard : Type where
  content : List Nat
  hash : String
  hash_algorithm : HashAlg
  g_time : String
  contentType : Option String := none
  deriving DecidableEq, Repr

/-- A minimal JSON value model for object content handed to the `MCard`
constructor (`JSON.stringify` branch of `src/core/mcard.js`). -/
inductive Json : Type
  | jstr (s : String)
  | jnum (n : Int)
  | jbool (b : Bool)
  | jarr (elems : List Json)
  | jobj (fields : List (String × Json))

mutual

/-- `JSON.stringify` over the JSON model: keys in the object's own insertion
order, no added whitespace, exactly as V8 serializes plain objects. -/
def jsonStringify : Json → String
  | .jstr s => "\"" ++ s ++ "\""
  | .jnum n => toString n
  | .jbool b => if b then "true" else "false"
  | .jarr elems => "[" ++ jsonStringifyList elems ++ "]"
  | .jobj fields => "\x7b" ++ jsonStringifyFields fields ++ "\x7d"

/-- Comma-separated serialization of array elements. -/
def jsonStringifyList : List Json → String
  | [] => ""
  | [x] => jsonStringify x
  | x :: xs => jsonStringify x ++ "," ++ jsonStringifyList xs

/-- Comma-separated serialization of object fields. -/
def jsonStringifyFields : List (String × Json) → String
  | [] => ""
  | [(k, v)] => "\"" ++ k ++ "\":" ++ jsonStringify v
  | (k, v) :: xs => "\"" ++ k ++ "\":" ++ jsonStringify v ++ "," ++ jsonStringifyFields xs

end

/-- Runtime content handed to the `MCard` constructor. JavaScript dispatches
on the dynamic type of `content`; the variants mirror the branches of
`src/core/mcard.js` lines 27–58: a Buffer, a string, a non-null object,
`null`, `undefined`, and any other unsupported runtime type (number,
boolean, ...). -/
inductive Content : Type
  | bytes (bs : List Nat)
  | text (s : String)
  | obj (j : Json)
  | nullContent
  | undefContent
  | unsupported

/-- Whether a JSON value is an empty plain object; `Object.keys(content)
.length === 0 && content.constructor === Object` in the constructor. -/
def isEmptyPlainObject : Json → Bool
  | .jobj [] => true
  | _ => false

/-- Content normalization of the `MCard` constructor (`src/core/mcard.js`
lines 27–58): `null` is rejected, Buffers pass through, strings are UTF-8
encoded, non-empty objects are JSON-serialized then UTF-8 encoded, empty
plain objects and unsupported runtime types are rejected. -/
def normalizeContent : Content → Except CardErr (List Nat)
  | .bytes bs => .ok bs
  | .text s => .ok (utf8Encode s)
  | .obj j =>
      if isEmptyPlainObject j then .error .invalidContent
      else .ok (utf8Encode (jsonStringify j))
  | .nullContent => .error .invalidContent
  | .undefContent => .error .invalidContent
  | .unsupported => .error .invalidContent

/-- The fresh-card constructor `new MCard(content, hashFunction)`
(`src/core/mcard.js` lines 25–80): normalize the content to bytes, reject an
empty result, digest under the chosen algorithm, and stamp `g_time` with the
same algorithm and the current wall clock `now` (region tag `"UTC"`). -/
def newCard (c : Content) (alg : HashAlg) (now : String) : Except CardErr MCard :=
  match normalizeContent c with
  | .error e => .error e
  | .ok bs =>
      if bs = [] then .error .emptyContent
      else .ok { content := bs
                 hash := hexDigest alg bs
                 hash_algorithm := alg
                 g_time := GTime_stamp_now alg now "UTC" }

/-- Magic-byte signature table of `ContentTypeInterpreter.detectType`
(`src/content/model/content_type_detector.js` lines 21–43), in its object's
insertion order; a MIME type may list several signatures. -/
def signatures : List (String × List (List Nat)) :=
  [ ("image/jpeg", [[0xFF, 0xD8, 0xFF]]),
    ("image/png", [[0x89, 0x50, 0x4E, 0x47]]),
    ("image/gif", [[0x47, 0x49, 0x46, 0x38]]),
    ("image/webp", [[0x52, 0x49, 0x46, 0x46]]),
    ("image/bmp", [[0x42, 0x4D]]),
    ("application/pdf", [[0x25, 0x50, 0x44, 0x46]]),
    ("audio/mpeg", [[0x49, 0x44, 0x33], [0xFF, 0xFB]]),
    ("audio/wav", [[0x52, 0x49, 0x46, 0x46]]),
    ("video/mp4", [[0x00, 0x00, 0x00, 0x18, 0x66, 0x74, 0x79, 0x70]]),
    ("video/webm", [[0x1A, 0x45, 0xDF, 0xA3]]),
    ("application/zip", [[0x50, 0x4B, 0x03, 0x04]]),
    ("application/gzip", [[0x1F, 0x8B]]) ]

/-- `signature.every((byte, i) => data[i] === byte)`: the signature is a
byte-for-byte prefix of the data (an out-of-range index reads `undefined`
and fails the comparison). -/
def sigMatches (data sig : List Nat) : Bool :=
  sig.isPrefixOf data

/-- Whether a byte counts as printable for the text heuristic: ASCII
printable range 32–126, tab, LF or CR
(`src/content/model/content_type_detector.js` lines 75–80). -/
def isPrintableByte (b : Nat) : Bool :=
  (32 ≤ b && b ≤ 126) || b = 9 || b = 10 || b = 13

/-- `ContentTypeInterpreter.isTextContent` (lines 67–84): empty data counts
as text; any NUL byte means binary; otherwise text when strictly more than
90% of the bytes are printable or tab/LF/CR. The JS ratio test
`printable / length > 0.9` is stated exactly over the rationals as
`10 * printable > 9 * length`; the double-precision and rational tests agree
for all lengths below 9·10¹⁴. -/
def isTextContent (data : List Nat) : Bool :=
  if data.length = 0 then true
  else if data.contains 0 then false
  else 10 * (data.filter isPrintableByte).length > 9 * data.length

/-- `ContentTypeInterpreter.detectType` (lines 12–60): fewer than 4 bytes is
`application/octet-stream`; the first matching magic signature wins;
otherwise the text heuristic decides between `text/plain` and
`application/octet-stream`. (The JS guard returning `text/plain` for a
non-Buffer argument is outside the byte-list model.) -/
def detectType (data : List Nat) : String :=
  if data.length < 4 then "application/octet-stream"
  else
    match signatures.find? (fun p => p.2.any (sigMatches data)) with
    | some p => p.1
    | none =>
        if isTextContent data then "text/plain"
        else "application/octet-stream"

/-- Reconstruction of a card from a persisted row: `MCardFromData`
(`src/core/mcard.js` lines 140–180). Content must be a non-empty byte
buffer, hash and g_time must be non-empty; the algorithm is parsed from
`g_time` (falling back to `sha256` as the constructor's catch branch does);
no re-digestion: the given hash and g_time are authoritative; a coarse
content type is detected and attached. -/
def cardFromRow (content : List Nat) (hash g_time : String) : Except CardErr MCard :=
  if content = [] then .error .invalidContent
  else if hash = "" then .error .invalidArgument
  else if g_time = "" then .error .invalidArgument
  else
    .ok { content := content
          hash := hash
          hash_algorithm := (parseAlg (GTime_get_hash_function g_time)).getD .sha256
          g_time := g_time
          contentType := some (detectType content) }

/-- `SafeBuffer.compare` (`src/utils/bufferPolyfill.js` lines 169–197):
lexicographic byte comparison returning `-1`, `0` or `1`; when one buffer is
a strict prefix of the other, the shorter sorts first. (The Node.js
delegation `Buffer.compare` has the identical contract.) -/
def SafeBuffer_compare : List Nat → List Nat → Int
  | [], [] => 0
  | [], _ :: _ => -1
  | _ :: _, [] => 1
  | a :: as, b :: bs =>
      if a < b then -1
      else if b < a then 1
      else SafeBuffer_compare as bs

/-- A persisted row: `(hash, g_time, content)`, the `card` table of the
reference schema in the sources. -/
structure Row : Type where
  hash : String
  g_time : String
  content : List Nat
  deriving DecidableEq, Repr

/-- Engine-level errors of the spec's §4.3/§7: the uniqueness guard
(`HashConflict`) and storage I/O failure (`EngineFailure`). -/
inductive EngineErr : Type
  | hashConflict
  | engineFailure
  deriving DecidableEq, Repr

/-- Modelled from the spec: the storage engine state
(`engine/sqlite_engine.js` is missing from `src/`); §4.3 requires rows keyed
uniquely by hash with a stable insertion order, which a list of rows
appended at the tail realizes. -/
abbrev EngineState : Type := List Row

/-- The row a card persists as. -/
def rowOf (c : MCard) : Row :=
  { hash := c.hash, g_time := c.g_time, content := c.content }

/-- Whether the engine holds a row with the given hash. -/
def hasHash (s : EngineState) (h : String) : Bool :=
  s.any fun r => r.hash = h

/-- Modelled from the spec: `engine.add(card)` inserts
`(hash, g_time, content)` and fails with `HashConflict` when the hash is
already present (§4.3); durable append at the tail preserves insertion
order. -/
def engineAdd (s : EngineState) (c : MCard) : Except EngineErr EngineState :=
  if hasHash s c.hash then .error .hashConflict
  else .ok (s ++ [rowOf c])

/-- Modelled from the spec: `engine.get(hash)` returns the card
reconstructed from the matching row via `card_from_row`, or a "not found"
sentinel (§4.3). A row that fails reconstruction behaves as absent. -/
def engineGet (s : EngineState) (h : String) : Option MCard :=
  (s.find? fun r => r.hash = h).bind fun r =>
    (cardFromRow r.content r.hash r.g_time).toOption

/-- Modelled from the spec: `engine.count()` is the exact row count. -/
def engineCount (s : EngineState) : Nat :=
  s.length

/-- Modelled from the spec: `engine.update(hash, new_content)` replaces the
bytes bound to the hash without re-digesting (§4.3), returning whether a row
was replaced; the `fail` flag models the environmental storage I/O failure
that raises `EngineFailure` (§7). -/
def engineUpdate (fail : Bool) (s : EngineState) (h : String) (bs : List Nat) :
    Except EngineErr (Bool × EngineState) :=
  if fail then .error .engineFailure
  else if hasHash s h then
    .ok (true, s.map fun r => if r.hash = h then { r with content := bs } else r)
  else .ok (false, s)

/-- Ceiling division, `Math.ceil(total / size)` on natural inputs. -/
def ceilDiv (t s : Nat) : Nat :=
  (t + s - 1) / s

/-- The raw result an engine page query returns: items plus the pagination
fields the collection spreads into a `Page`. -/
structure EnginePageResult : Type where
  items : List MCard
  total_items : Nat
  page_number : Nat
  page_size : Nat
  has_next : Bool
  has_previous : Bool
  deriving DecidableEq, Repr

/-- Modelled from the spec: `engine.get_page(n, size)` returns the n-th page
of the rows in insertion order with `total_items` the exact row count
(§4.3); `has_next` holds when rows remain past this page and `has_previous`
when the page number exceeds 1, and `n > total_pages` with a non-empty store
raises `PageOutOfRange` — surfaced by the engine as a failure, modelled on
the engine error type. -/
def engineGetPage (s : EngineState) (n size : Nat) :
    Except EngineErr EnginePageResult :=
  if s.length > 0 ∧ n > ceilDiv s.length size then .error .engineFailure
  else
    .ok { items := ((s.drop ((n - 1) * size)).take size).filterMap fun r =>
            (cardFromRow r.content r.hash r.g_time).toOption
          total_items := s.length
          page_number := n
          page_size := size
          has_next := n * size < s.length
          has_previous := n > 1 }

/-- Modelled from the spec: `engine.get_all(n, size)` is an alias for
`engine.get_page` in collection usage (§4.3). -/
def engineGetAll (s : EngineState) (n size : Nat) :
    Except EngineErr EnginePageResult :=
  engineGetPage s n size

/-- Modelled from the spec: `generateDuplicationEvent(existing)`
(`core/event-producer.js` missing from `src/`) returns a UTF-8 JSON payload
with `event_type` `"duplicate"`, a timestamp, the referenced hash and the
algorithm, and no raw content bytes (§4.5, §6). -/
def generateDuplicationEvent (c : MCard) : String :=
  "\x7b\"event_type\":\"duplicate\",\"timestamp\":\"" ++ c.g_time ++
    "\",\"hashes\":[\"" ++ c.hash ++ "\"],\"algorithm\":\"" ++
    algName c.hash_algorithm ++ "\"\x7d"

/-- Modelled from the spec: `generateCollisionEvent(new_card, existing)`
returns a UTF-8 JSON payload with `event_type` `"collision"`, a timestamp,
both hashes and both algorithm names, and no raw content bytes (§4.5,
§6). -/
def generateCollisionEvent (newC existing : MCard) : String :=
  "\x7b\"event_type\":\"collision\",\"timestamp\":\"" ++ newC.g_time ++
    "\",\"hashes\":[\"" ++ existing.hash ++ "\",\"" ++ newC.hash ++
    "\"],\"algorithms\":[\"" ++ algName existing.hash_algorithm ++ "\",\"" ++
    algName newC.hash_algorithm ++ "\"]\x7d"

/-- The pagination envelope: `Page` of `src/core/mcard.js` lines 218–244. -/
structure Page : Type where
  items : List MCard
  total_items : Nat
  page_number : Nat
  page_size : Nat
  has_next : Bool
  has_previous : Bool
  total_pages : Nat
  previous_page : Option Nat
  next_page : Option Nat
  deriving DecidableEq, Repr

/-- The `Page` constructor (`src/core/mcard.js` lines 219–243): stores the
supplied fields and derives `previous_page`/`next_page` from
`has_previous`/`has_next`; `total_pages` defaults to 0 when the caller does
not supply one. -/
def Page.make (items : List MCard) (total_items page_number page_size : Nat)
    (has_next has_previous : Bool) (total_pages : Nat) : Page :=
  { items := items
    total_items := total_items
    page_number := page_number
    page_size := page_size
    has_next := has_next
    has_previous := has_previous
    total_pages := total_pages
    previous_page := if has_previous then some (page_number - 1) else none
    next_page := if has_next then some (page_number + 1) else none }

/-- Collection-level errors: the spec's §7 kinds that `CardCollection`
raises or re-surfaces. `upgradeFailed` covers both defensive checks of the
collision branch (same algorithm after upgrade; digest length not strictly
increased). -/
inductive CollErr : Type
  | cardErr (e : CardErr)
  | engineErr (e : EngineErr)
  | invalidArgument
  | pageOutOfRange
  | noStrongerAlgorithm
  | upgradeFailed
  deriving DecidableEq, Repr

/-- `CardCollection.add(card)` (`src/core/mcard.js` lines 254–356). The pair
returned is (outcome, engine state after the call): JavaScript exceptions
become `.error` outcomes, and the state component records exactly the engine
writes performed before the exception. Branches: absent hash → insert and
return the card's hash; byte-identical content → write one duplicate event
card under the DEFAULT algorithm and return its hash; differing content →
upgrade the algorithm via the hierarchy (`NoStrongerAlgorithm` when
exhausted), rebuild the card, check the upgrade is a different algorithm
with strictly larger digest length (`UpgradeFailed` otherwise), write the
upgraded card then the collision event card, and return the event card's
hash. The wall clock for cards built inside the call is `now`. -/
def collectionAdd (s : EngineState) (card : MCard) (now : String) :
    Except CollErr String × EngineState :=
  match engineGet s card.hash with
  | none =>
      match engineAdd s card with
      | .error e => (.error (.engineErr e), s)
      | .ok s1 => (.ok card.hash, s1)
  | some existing =>
      if SafeBuffer_compare existing.content card.content = 0 then
        let evStr := generateDuplicationEvent existing
        match newCard (.bytes (utf8Encode evStr)) DEFAULT_ALG now with
        | .error e => (.error (.cardErr e), s)
        | .ok evCard =>
            match engineAdd s evCard with
            | .error e => (.error (.engineErr e), s)
            | .ok s1 => (.ok evCard.hash, s1)
      else
        let evStr := generateCollisionEvent card existing
        match HASH_ALGORITHM_HIERARCHY card.hash_algorithm with
        | none => (.error .noStrongerAlgorithm, s)
        | some upgraded =>
            match newCard (.bytes card.content) upgraded now with
            | .error e => (.error (.cardErr e), s)
            | .ok collisionCard =>
                if collisionCard.hash_algorithm = card.hash_algorithm then
                  (.error .upgradeFailed, s)
                else if HASH_LENGTHS upgraded ≤ HASH_LENGTHS card.hash_algorithm then
                  (.error .upgradeFailed, s)
                else
                  match engineAdd s collisionCard with
                  | .error e => (.error (.engineErr e), s)
                  | .ok s1 =>
                      match newCard (.bytes (utf8Encode evStr)) DEFAULT_ALG now with
                      | .error e => (.error (.cardErr e), s1)
                      | .ok evCard =>
                          match engineAdd s1 evCard with
                          | .error e => (.error (.engineErr e), s1)
                          | .ok s2 => (.ok evCard.hash, s2)

/-- `CardCollection.get_page(page_number, page_size)` (`src/core/mcard.js`
lines 366–391): arguments below 1 are rejected, the engine result is
wrapped in a `Page` with `total_pages` explicitly recomputed as
`ceil(total_items / page_size)` (0 when empty), and a page number beyond
`total_pages` on a non-empty store is rejected. -/
def collectionGetPage (s : EngineState) (page_number page_size : Nat) :
    Except CollErr Page :=
  if page_number < 1 then .error .invalidArgument
  else if page_size < 1 then .error .invalidArgument
  else
    match engineGetPage s page_number page_size with
    | .error e => .error (.engineErr e)
    | .ok result =>
        if result.total_items > 0 ∧ page_number >
            (if result.total_items > 0 then ceilDiv result.total_items page_size else 0) then
          .error .pageOutOfRange
        else
          .ok (Page.make result.items result.total_items result.page_number
            result.page_size result.has_next result.has_previous
            (if result.total_items > 0 then ceilDiv result.total_items page_size else 0))

/-- `CardCollection.get_all(page_number, page_size)` (`src/core/mcard.js`
lines 482–492): passes the arguments to `engine.get_all` without any
validation and wraps the result in a `Page` built from the engine's items,
totals and flags — supplying no `total_pages`, so the `Page` default 0
applies. -/
def collectionGetAll (s : EngineState) (page_number page_size : Nat) :
    Except CollErr Page :=
  match engineGetAll s page_number page_size with
  | .error e => .error (.engineErr e)
  | .ok result =>
      .ok (Page.make result.items result.total_items result.page_number
        result.page_size result.has_next result.has_previous 0)

/-- `CardCollection.update(hash, newContent)` (`src/core/mcard.js` lines
454–472): an empty hash is rejected; a missing card returns `false`;
otherwise the call forwards to `engine.update`, and any error the engine
raises is caught and converted to the return value `false`. The pair is
(outcome carrying the returned boolean, engine state after the call). -/
def collectionUpdate (fail : Bool) (s : EngineState) (h : String) (bs : List Nat) :
    Except CollErr (Bool × EngineState) :=
  if h = "" then .error .invalidArgument
  else
    match engineGet s h with
    | none => .ok (false, s)
    | some _ =>
        match engineUpdate fail s h bs with
        | .error _ => .ok (false, s)
        | .ok r => .ok r

/-! ### Helper lemmas -/

theorem compare_eq_zero_iff (a b : List Nat) : SafeBuffer_compare a b = 0 ↔ a = b := by
  induction a generalizing b with
  | nil => cases b <;> simp [SafeBuffer_compare]
  | cons x xs ih =>
      cases b with
      | nil => simp [SafeBuffer_compare]
      | cons y ys =>
          by_cases hxy : x < y
          · simp [SafeBuffer_compare, hxy]
            omega
          · by_cases hyx : y < x
            · simp [SafeBuffer_compare, hxy, hyx]
              omega
            · have hxy' : x = y := by omega
              subst hxy'
              simp [SafeBuffer_compare, ih]

theorem compare_eq_neg_one_iff (a b : List Nat) :
    SafeBuffer_compare a b = -1 ↔ List.Lex (· < ·) a b := by
  induction a generalizing b with
  | nil =>
      cases b with
      | nil => simp [SafeBuffer_compare]
      | cons y ys =>
          simp only [SafeBuffer_compare]
          exact ⟨fun _ => List.Lex.nil, fun _ => trivial⟩
  | cons x xs ih =>
      cases b with
      | nil =>
          simp only [SafeBuffer_compare]
          constructor
          · intro h; omega
          · intro h; cases h
      | cons y ys =>
          by_cases hxy : x < y
          · simp only [SafeBuffer_compare, if_pos hxy]
            exact ⟨fun _ => List.Lex.rel hxy, fun _ => trivial⟩
          · by_cases hyx : y < x
            · simp only [SafeBuffer_compare, if_neg hxy, if_pos hyx]
              constructor
              · intro h; omega
              · intro h
                cases h with
                | cons h => omega
                | rel h => omega
            · have hxy' : x = y := by omega
              subst hxy'
              simp only [SafeBuffer_compare, if_neg hxy, if_neg hyx]
              rw [ih]
              constructor
              · exact List.Lex.cons
              · intro h
                cases h with
                | cons h => exact h
                | rel h => omega

theorem compare_eq_one_iff (a b : List Nat) :
    SafeBuffer_compare a b = 1 ↔ List.Lex (· < ·) b a := by
  induction a generalizing b with
  | nil =>
      cases b with
      | nil => simp [SafeBuffer_compare]
      | cons y ys =>
          simp only [SafeBuffer_compare]
          constructor
          · intro h; omega
          · intro h; cases h
  | cons x xs ih =>
      cases b with
      | nil =>
          simp only [SafeBuffer_compare]
          exact ⟨fun _ => List.Lex.nil, fun _ => trivial⟩
      | cons y ys =>
          by_cases hxy : x < y
          · simp only [SafeBuffer_compare, if_pos hxy]
            constructor
            · intro h; omega
            · intro h
              cases h with
              | cons h => omega
              | rel h => omega
          · by_cases hyx : y < x
            · simp only [SafeBuffer_compare, if_neg hxy, if_pos hyx]
              exact ⟨fun _ => List.Lex.rel hyx, fun _ => trivial⟩
            · have hxy' : x = y := by omega
              subst hxy'
              simp only [SafeBuffer_compare, if_neg hxy, if_neg hyx]
              rw [ih]
              constructor
              · exact List.Lex.cons
              · intro h
                cases h with
                | cons h => exact h
                | rel h => omega

theorem length_hexOfBytes (bs : List Nat) : (hexOfBytes bs).length = 2 * bs.length := by
  unfold hexOfBytes
  induction bs with
  | nil => rfl
  | cons b bs ih =>
      simp only [List.flatMap_cons, String.length] at *
      simp only [List.length_append, List.length_cons, List.length_nil] at *
      omega

theorem length_digestBytes (alg : HashAlg) (bs : List Nat) :
    (digestBytes alg bs).length = HASH_LENGTHS alg := by
  unfold digestBytes
  simp

theorem length_hexDigest (alg : HashAlg) (bs : List Nat) :
    (hexDigest alg bs).length = 2 * HASH_LENGTHS alg := by
  unfold hexDigest
  rw [length_hexOfBytes, length_digestBytes]

theorem hexDigest_ne_empty (alg : HashAlg) (bs : List Nat) :
    hexDigest alg bs ≠ "" := by
  intro h
  have := length_hexDigest alg bs
  rw [h] at this
  cases alg <;> simp [HASH_LENGTHS, String.length] at this

theorem encodeChar_ne_nil (c : Char) : encodeChar c ≠ [] := by
  unfold encodeChar
  simp only []
  split <;> [simp; skip]
  split <;> [simp; skip]
  split <;> simp

theorem utf8Encode_append_ne_nil (s t : String) (h : s.data ≠ []) :
    utf8Encode (s ++ t) ≠ [] := by
  unfold utf8Encode
  cases hs : s.data with
  | nil => exact absurd hs h
  | cons c cs =>
      have : (s ++ t).data = s.data ++ t.data := rfl
      rw [this, hs]
      simp only [List.cons_append, List.flatMap_cons]
      intro hcontra
      have h1 := encodeChar_ne_nil c
      rcases List.append_eq_nil.mp hcontra with ⟨h2, _⟩
      exact h1 h2

theorem newCard_bytes_ok (bs : List Nat) (alg : HashAlg) (now : String) (h : bs ≠ []) :
    newCard (.bytes bs) alg now =
      .ok { content := bs
            hash := hexDigest alg bs
            hash_algorithm := alg
            g_time := GTime_stamp_now alg now "UTC" } := by
  unfold newCard normalizeContent
  simp [h]

theorem cardFromRow_ok (content : List Nat) (h g : String)
    (h1 : content ≠ []) (h2 : h ≠ "") (h3 : g ≠ "") :
    cardFromRow content h g =
      .ok { content := content
            hash := h
            hash_algorithm := (parseAlg (GTime_get_hash_function g)).getD .sha256
            g_time := g
            contentType := some (detectType content) } := by
  unfold cardFromRow
  simp [h1, h2, h3]

theorem hasHash_false_find_none (s : EngineState) (h : String)
    (hh : hasHash s h = false) : s.find? (fun r => r.hash = h) = none := by
  rw [List.find?_eq_none]
  intro r hr
  unfold hasHash at hh
  rw [List.any_eq_false] at hh
  exact fun hc => by simpa [hc] using hh r hr

theorem engineGet_append_single (s : EngineState) (r : Row) (h : String)
    (hh : hasHash s h = false) :
    engineGet (s ++ [r]) h =
      if r.hash = h then (cardFromRow r.content r.hash r.g_time).toOption else none := by
  unfold engineGet
  rw [List.find?_append, hasHash_false_find_none s h hh]
  by_cases hr : r.hash = h
  · simp [hr]
  · simp [hr]

theorem ceilDiv_lt_iff (n t s : Nat) (hs : 0 < s) :
    n < ceilDiv t s ↔ n * s < t := by
  unfold ceilDiv
  constructor
  · intro h
    have h1 : n + 1 ≤ (t + s - 1) / s := h
    have h2 : (n + 1) * s ≤ t + s - 1 := (Nat.le_div_iff_mul_le hs).mp h1
    have h3 : (n + 1) * s = n * s + s := by ring
    omega
  · intro h
    have h2 : (n + 1) * s ≤ t + s - 1 := by
      have h3 : (n + 1) * s = n * s + s := by ring
      omega
    exact (Nat.le_div_iff_mul_le hs).mpr h2

theorem hierarchy_strict (a u : HashAlg) (h : HASH_ALGORITHM_HIERARCHY a = some u) :
    HASH_LENGTHS a < HASH_LENGTHS u ∧ u ≠ a := by
  cases a <;> simp [HASH_ALGORITHM_HIERARCHY] at h <;> subst h <;>
    simp [HASH_LENGTHS]

theorem stringAppend_assoc (a b c : String) : a ++ b ++ c = a ++ (b ++ c) := by
  cases a with
  | mk la =>
      cases b with
      | mk lb =>
          cases c with
          | mk lc =>
              show String.mk ((la ++ lb) ++ lc) = String.mk (la ++ (lb ++ lc))
              rw [List.append_assoc]

/-! ### Claim theorems -/

/-- C10: `SafeBuffer.compare(a, b)` returns 0 exactly when `a` and `b` have
the same length and identical bytes at every index; otherwise it returns -1
or 1 per lexicographic order with the shorter prefix sorting first. Hence
the duplicate-versus-collision decision of `CardCollection.add`, which tests
`SafeBuffer.compare(existing.content, card.content) === 0`, is exact
byte-for-byte equality of the existing and incoming content. -/
theorem claim_C10 :
    (∀ a b : List Nat, SafeBuffer_compare a b = 0 ↔ a = b) ∧
    (∀ a b : List Nat, SafeBuffer_compare a b = -1 ↔ List.Lex (· < ·) a b) ∧
    (∀ a b : List Nat, SafeBuffer_compare a b = 1 ↔ List.Lex (· < ·) b a) ∧
    (∀ (s : EngineState) (card ex : MCard), engineGet s card.hash = some ex →
      (SafeBuffer_compare ex.content card.content = 0 ↔ ex.content = card.content)) :=
  ⟨compare_eq_zero_iff, compare_eq_neg_one_iff, compare_eq_one_iff,
    fun _ card ex _ => compare_eq_zero_iff ex.content card.content⟩

/-- Engine state with a single persisted row, used by concrete witnesses. -/
def wRow : Row := { hash := "H", g_time := "sha256|2023-01-01T00:00:00.000000Z|UTC", content := [1] }

/-- Incoming card carrying the same hash as `wRow` but different bytes (the
forced-collision harness of the spec's scenario 6). -/
def wCard : MCard :=
  { content := [2], hash := "H", hash_algorithm := .sha256
    g_time := "sha256|2023-01-01T00:00:01.000000Z|UTC" }

/-- The card `engine.get` reconstructs from `wRow`. -/
def wEx : MCard :=
  { content := [1], hash := "H", hash_algorithm := .sha256
    g_time := "sha256|2023-01-01T00:00:00.000000Z|UTC"
    contentType := some "application/octet-stream" }

/-- Witness for C10 at concrete inputs. -/
theorem claim_C10_witness :
    SafeBuffer_compare [1, 2, 3] [1, 2, 3] = 0 ∧
    SafeBuffer_compare [1, 2] [1, 2, 3] = -1 ∧
    SafeBuffer_compare [5] [4, 9] = 1 ∧
    (SafeBuffer_compare wEx.content wCard.content = 0 ↔ wEx.content = wCard.content) :=
  ⟨(claim_C10.1 _ _).mpr rfl,
   (claim_C10.2.1 _ _).mpr (List.Lex.cons (List.Lex.cons List.Lex.nil)),
   (claim_C10.2.2.1 _ _).mpr (List.Lex.rel (by decide)),
   claim_C10.2.2.2 [wRow] wCard wEx (by decide)⟩

/-- C5: the fresh-card constructor fails on every invalid input and succeeds
otherwise: `null` or absent (`undefined`) content and unsupported runtime
types fail with `InvalidContent`, an empty plain object fails with
`InvalidContent`, any input normalizing to zero bytes fails with
`EmptyContent`, and every other input yields a card. -/
theorem claim_C5 :
    (∀ (alg : HashAlg) (now : String),
        newCard .nullContent alg now = .error .invalidContent) ∧
    (∀ (alg : HashAlg) (now : String),
        newCard .undefContent alg now = .error .invalidContent) ∧
    (∀ (alg : HashAlg) (now : String),
        newCard (.obj (.jobj [])) alg now = .error .invalidContent) ∧
    (∀ (alg : HashAlg) (now : String),
        newCard .unsupported alg now = .error .invalidContent) ∧
    (∀ (c : Content) (alg : HashAlg) (now : String),
        normalizeContent c = .ok [] → newCard c alg now = .error .emptyContent) ∧
    (∀ (c : Content) (alg : HashAlg) (now : String) (bs : List Nat),
        normalizeContent c = .ok bs → bs ≠ [] → (newCard c alg now).isOk = true) := by
  refine ⟨fun alg now => rfl, fun alg now => rfl, fun alg now => rfl, fun alg now => rfl,
    ?_, ?_⟩
  · intro c alg now hnorm
    unfold newCard
    rw [hnorm]
    rfl
  · intro c alg now bs hnorm hne
    unfold newCard
    rw [hnorm]
    simp [hne, Except.isOk, Except.toBool]

/-- Witness for C5 at concrete inputs. -/
theorem claim_C5_witness :
    newCard .nullContent .sha256 "t" = .error .invalidContent ∧
    newCard .undefContent .sha256 "t" = .error .invalidContent ∧
    newCard (.obj (.jobj [])) .sha256 "t" = .error .invalidContent ∧
    newCard .unsupported .sha256 "t" = .error .invalidContent ∧
    newCard (.text "") .sha256 "t" = .error .emptyContent ∧
    (newCard (.text "A") .sha256 "t").isOk = true :=
  ⟨claim_C5.1 .sha256 "t", claim_C5.2.1 .sha256 "t", claim_C5.2.2.1 .sha256 "t",
   claim_C5.2.2.2.1 .sha256 "t",
   claim_C5.2.2.2.2.1 (.text "") .sha256 "t" (by decide),
   claim_C5.2.2.2.2.2 (.text "A") .sha256 "t" [65] (by decide) (by decide)⟩

/-- C4: the fresh-card constructor normalizes text to its UTF-8 bytes and an
object to its JSON serialization's UTF-8 bytes, sets `hash` to the
(lowercase hex) digest of the content bytes under the chosen algorithm, and
stamps `g_time` with the same algorithm; `new_card("Hello, World!", sha256)`
yields the UTF-8 bytes of the text, a 64-character hex hash, algorithm
`sha256`, and a `g_time` beginning with `"sha256|"`. The final conjunct
checks the concrete digest is lowercase hexadecimal. -/
theorem claim_C4 :
    (∀ (s : String) (alg : HashAlg) (now : String) (c : MCard),
        newCard (.text s) alg now = .ok c →
          c.content = utf8Encode s ∧ c.hash = hexDigest alg (utf8Encode s) ∧
          c.hash_algorithm = alg ∧ c.g_time = GTime_stamp_now alg now "UTC") ∧
    (∀ (j : Json) (alg : HashAlg) (now : String) (c : MCard),
        newCard (.obj j) alg now = .ok c →
          c.content = utf8Encode (jsonStringify j)) ∧
    (∀ (now : String) (c : MCard),
        newCard (.text "Hello, World!") .sha256 now = .ok c →
          c.content = utf8Encode "Hello, World!" ∧ c.hash.length = 64 ∧
          c.hash_algorithm = .sha256 ∧ ∃ rest, c.g_time = "sha256|" ++ rest) ∧
    (hexDigest .sha256 (utf8Encode "Hello, World!")).data.all
      (fun ch => ch ∈ "0123456789abcdef".data) = true := by
  have htext : ∀ (s : String) (alg : HashAlg) (now : String) (c : MCard),
      newCard (.text s) alg now = .ok c →
        c.content = utf8Encode s ∧ c.hash = hexDigest alg (utf8Encode s) ∧
        c.hash_algorithm = alg ∧ c.g_time = GTime_stamp_now alg now "UTC" := by
    intro s alg now c h
    unfold newCard normalizeContent at h
    by_cases he : utf8Encode s = []
    · simp [he] at h
    · simp [he] at h
      subst h
      exact ⟨rfl, rfl, rfl, rfl⟩
  refine ⟨htext, ?_, ?_, by decide⟩
  · intro j alg now c h
    unfold newCard normalizeContent at h
    by_cases hobj : isEmptyPlainObject j
    · simp [hobj] at h
    · by_cases he : utf8Encode (jsonStringify j) = []
      · simp [hobj, he] at h
      · simp [hobj, he] at h
        subst h
        rfl
  · intro now c h
    obtain ⟨h1, h2, h3, h4⟩ := htext "Hello, World!" .sha256 now c h
    refine ⟨h1, ?_, h3, ?_⟩
    · rw [h2, length_hexDigest]
      rfl
    · refine ⟨now ++ "|" ++ "UTC", ?_⟩
      rw [h4]
      show algName .sha256 ++ "|" ++ now ++ "|" ++ "UTC" = "sha256|" ++ (now ++ "|" ++ "UTC")
      rw [stringAppend_assoc (algName .sha256 ++ "|" ++ now) "|" "UTC",
        stringAppend_assoc (algName .sha256 ++ "|") now ("|" ++ "UTC"),
        stringAppend_assoc (algName .sha256) "|" (now ++ ("|" ++ "UTC"))]
      show "sha256" ++ ("|" ++ (now ++ ("|" ++ "UTC"))) = "sha256|" ++ (now ++ "|" ++ "UTC")
      rw [← stringAppend_assoc "sha256" "|" (now ++ ("|" ++ "UTC"))]
      rw [stringAppend_assoc now "|" "UTC"]
      rfl

/-- The concrete card `new_card("Hello, World!", sha256)` constructs. -/
def wHello : MCard :=
  { content := utf8Encode "Hello, World!"
    hash := hexDigest .sha256 (utf8Encode "Hello, World!")
    hash_algorithm := .sha256
    g_time := "sha256|2023-01-01T00:00:00.000000Z|UTC" }

/-- Witness for C4 at the concrete spec scenario. -/
theorem claim_C4_witness :
    wHello.content = utf8Encode "Hello, World!" ∧ wHello.hash.length = 64 ∧
    wHello.hash_algorithm = HashAlg.sha256 :=
  have h := claim_C4.2.2.1 "2023-01-01T00:00:00.000000Z" wHello (by decide)
  ⟨h.1, h.2.1, h.2.2.1⟩

/-- Bytes that are >90% printable but not all printable: twenty `'A'`s and
one control byte `0x07`, no NUL. -/
def c8bytes : List Nat := List.replicate 20 65 ++ [7]

/-- Counterexample to C8 as stated: the card reconstructed from a row whose
bytes contain the non-printable, non-NUL byte `0x07` (so *not* all bytes are
printable ASCII or common whitespace) is still classified `text/plain`,
because `isTextContent` only requires strictly more than 90% printable
bytes. -/
theorem claim_C8_counterexample :
    (cardFromRow c8bytes "abc" "md5|2023-01-01T12:00:00.000000Z|REGION").toOption.map
        (fun c => c.contentType) = some (some "text/plain") ∧
    c8bytes.all isPrintableByte = false ∧
    c8bytes.contains 0 = false := by decide

/-- C8 (amended): a reconstructed card's attached content type is the
detector's result, and the detector returns `text/plain` exactly when the
data is at least 4 bytes long, matches no magic signature, contains no NUL
byte, and strictly more than 90% (not: all) of its bytes are printable
ASCII or tab/LF/CR; data shorter than 4 bytes is
`application/octet-stream`; the first-match magic table overrides, and in
particular a PNG magic prefix classifies as `image/png`. -/
theorem claim_C8 :
    (∀ (content : List Nat) (h g : String) (card : MCard),
        cardFromRow content h g = .ok card →
          card.contentType = some (detectType content)) ∧
    (∀ data : List Nat,
        detectType data = "text/plain" ↔
          (4 ≤ data.length ∧
           signatures.find? (fun p => p.2.any (sigMatches data)) = none ∧
           data.contains 0 = false ∧
           10 * (data.filter isPrintableByte).length > 9 * data.length)) ∧
    (∀ data : List Nat, data.length < 4 → detectType data = "application/octet-stream") ∧
    (∀ tail : List Nat, detectType ([0x89, 0x50, 0x4E, 0x47] ++ tail) = "image/png") := by
  refine ⟨?_, ?_, ?_, ?_⟩
  · intro content h g card hc
    unfold cardFromRow at hc
    by_cases h1 : content = []
    · simp [h1] at hc
    · by_cases h2 : h = ""
      · simp [h1, h2] at hc
      · by_cases h3 : g = ""
        · simp [h1, h2, h3] at hc
        · simp [h1, h2, h3] at hc
          subst hc
          rfl
  · intro data
    unfold detectType
    by_cases hlen : data.length < 4
    · rw [if_pos hlen]
      constructor
      · intro hcontra
        exact absurd hcontra (by decide)
      · rintro ⟨h4, -⟩
        omega
    · rw [if_neg hlen]
      split
      · rename_i p hfind
        have hmem : p ∈ signatures := List.mem_of_find?_eq_some hfind
        have hne : ¬ p.1 = "text/plain" := by
          unfold signatures at hmem
          simp only [List.mem_cons, List.not_mem_nil, or_false] at hmem
          rcases hmem with h | h | h | h | h | h | h | h | h | h | h | h <;>
            subst h <;> decide
        constructor
        · intro hcontra
          exact absurd hcontra hne
        · rintro ⟨-, hnone, -⟩
          rw [hfind] at hnone
          exact absurd hnone (by simp)
      · rename_i hfind
        have hdne : ¬ data.length = 0 := by omega
        constructor
        · intro hT
          by_cases hTc : isTextContent data
          · unfold isTextContent at hTc
            rw [if_neg hdne] at hTc
            simp at hTc
            exact ⟨by omega, hfind, by simpa using hTc.1, by omega⟩
          · rw [if_neg hTc] at hT
            exact absurd hT (by decide)
        · rintro ⟨-, -, hz, hr⟩
          have hT : isTextContent data = true := by
            unfold isTextContent
            rw [if_neg hdne, hz]
            simp only [Bool.false_eq_true, if_false, decide_eq_true_eq]
            exact hr
          rw [if_pos hT]
  · intro data hlen
    unfold detectType
    rw [if_pos hlen]
  · intro tail
    unfold detectType
    have hlen : ¬ ([0x89, 0x50, 0x4E, 0x47] ++ tail).length < 4 := by
      simp
    rw [if_neg hlen]
    have hfind : signatures.find?
        (fun p => p.2.any (sigMatches ([0x89, 0x50, 0x4E, 0x47] ++ tail))) =
        some ("image/png", [[0x89, 0x50, 0x4E, 0x47]]) := by
      unfold signatures sigMatches
      simp [List.find?, List.isPrefixOf]
    rw [hfind]

/-- The card reconstructed from a 4-printable-byte row, for the C8
witness. -/
def wC8card : MCard :=
  { content := [65, 66, 67, 68], hash := "h", hash_algorithm := .md5
    g_time := "md5|2023-01-01T12:00:00.000000Z|REGION"
    contentType := some "text/plain" }

/-- Witness for C8 (amended) at concrete inputs. -/
theorem claim_C8_witness :
    detectType ([0x89, 0x50, 0x4E, 0x47] ++ [0, 1]) = "image/png" ∧
    detectType [65, 66, 67, 68] = "text/plain" ∧
    wC8card.contentType = some (detectType [65, 66, 67, 68]) :=
  ⟨claim_C8.2.2.2 [0, 1],
   (claim_C8.2.1 [65, 66, 67, 68]).mpr (by decide),
   claim_C8.1 [65, 66, 67, 68] "h" "md5|2023-01-01T12:00:00.000000Z|REGION" wC8card
     (by decide)⟩

/-- C6: every `Page` returned by the collection's `get_page` satisfies the
page math: `total_pages = ceil(total_items / page_size)` when there are
items and 0 otherwise, `has_next ⇔ page_number < total_pages`,
`has_previous ⇔ page_number > 1`, `next_page = page_number + 1` exactly when
`has_next` (else none), and symmetrically for `previous_page`. -/
theorem claim_C6 (s : EngineState) (n size : Nat) (p : Page)
    (h : collectionGetPage s n size = .ok p) :
    p.total_pages = (if p.total_items > 0 then ceilDiv p.total_items p.page_size else 0) ∧
    (p.has_next = true ↔ p.page_number < p.total_pages) ∧
    (p.has_previous = true ↔ 1 < p.page_number) ∧
    p.next_page = (if p.has_next then some (p.page_number + 1) else none) ∧
    p.previous_page = (if p.has_previous then some (p.page_number - 1) else none) := by
  unfold collectionGetPage at h
  by_cases hn : n < 1
  · rw [if_pos hn] at h
    exact absurd h (by simp)
  · rw [if_neg hn] at h
    by_cases hsz : size < 1
    · rw [if_pos hsz] at h
      exact absurd h (by simp)
    · rw [if_neg hsz] at h
      split at h
      · exact absurd h (by simp)
      · rename_i r hE
        unfold engineGetPage at hE
        split at hE
        · exact absurd hE (by simp)
        · rename_i hoor
          have hrr := Except.ok.inj hE
          subst hrr
          dsimp only at h
          have hsz' : 0 < size := by omega
          by_cases ht : s.length > 0
          · rw [if_pos ht] at h
            by_cases hoor2 : s.length > 0 ∧ n > ceilDiv s.length size
            · rw [if_pos hoor2] at h
              exact absurd h (by simp)
            · rw [if_neg hoor2] at h
              have hp := Except.ok.inj h
              subst hp
              unfold Page.make
              dsimp only
              refine ⟨(if_pos ht).symm, ?_, ?_, rfl, rfl⟩
              · simp only [decide_eq_true_eq]
                exact (ceilDiv_lt_iff n s.length size hsz').symm
              · simp
          · rw [if_neg ht] at h
            rw [if_neg (fun hc => ht hc.1)] at h
            have hp := Except.ok.inj h
            subst hp
            unfold Page.make
            dsimp only
            have ht0 : s.length = 0 := by omega
            refine ⟨(if_neg ht).symm, ?_, ?_, rfl, rfl⟩
            · rw [ht0]
              simp
            · simp

/-- The page `get_page(1, 1)` returns on the single-row store `[wRow]`. -/
def wPage : Page :=
  { items := [wEx], total_items := 1, page_number := 1, page_size := 1
    has_next := false, has_previous := false, total_pages := 1
    previous_page := none, next_page := none }

/-- Witness for C6 at a concrete store and page query. -/
theorem claim_C6_witness :
    wPage.total_pages =
      (if wPage.total_items > 0 then ceilDiv wPage.total_items wPage.page_size else 0) ∧
    (wPage.has_next = true ↔ wPage.page_number < wPage.total_pages) ∧
    (wPage.has_previous = true ↔ 1 < wPage.page_number) ∧
    wPage.next_page = (if wPage.has_next then some (wPage.page_number + 1) else none) ∧
    wPage.previous_page =
      (if wPage.has_previous then some (wPage.page_number - 1) else none) :=
  claim_C6 [wRow] 1 1 wPage (by decide)

/-- Counterexample to C7 as stated: on a one-row store, `get_all(1, 1)`
returns a Page with `total_pages = 0` even though `total_items = 1 > 0`
(the code never passes `total_pages`, so the `Page` default 0 applies),
while `get_page(1, 1)` on the same state returns `total_pages = 1`; and
`get_all(0, 1)` succeeds where `get_page(0, 1)` raises `InvalidArgument` —
so `get_all` is not an alias of `get_page`. -/
theorem claim_C7_counterexample :
    (collectionGetAll [wRow] 1 1).map (fun p => p.total_pages) = .ok 0 ∧
    (collectionGetPage [wRow] 1 1).map (fun p => p.total_pages) = .ok 1 ∧
    (collectionGetAll [wRow] 0 1).isOk = true ∧
    collectionGetPage [wRow] 0 1 = .error .invalidArgument := by decide

/-- C7 (amended): `get_all` forwards to the engine without validating the
arguments and wraps the engine result in a Page whose `total_pages` is
always 0 (the `Page` constructor default); for the same engine state and
arguments, its items, totals and flags coincide with those of `get_page`
whenever the latter succeeds, but `total_pages` is not recomputed. -/
theorem claim_C7 (s : EngineState) (n size : Nat) (p : Page)
    (h : collectionGetAll s n size = .ok p) :
    p.total_pages = 0 ∧
    (∀ q : Page, collectionGetPage s n size = .ok q →
      q.items = p.items ∧ q.total_items = p.total_items ∧
      q.page_number = p.page_number ∧ q.page_size = p.page_size ∧
      q.has_next = p.has_next ∧ q.has_previous = p.has_previous) := by
  unfold collectionGetAll engineGetAll at h
  rcases hE : engineGetPage s n size with e | r
  · rw [hE] at h
    exact absurd h (by simp)
  · rw [hE] at h
    dsimp only at h
    have hp := Except.ok.inj h
    subst hp
    refine ⟨rfl, ?_⟩
    intro q hq
    unfold collectionGetPage at hq
    by_cases hn : n < 1
    · rw [if_pos hn] at hq
      exact absurd hq (by simp)
    · rw [if_neg hn] at hq
      by_cases hsz : size < 1
      · rw [if_pos hsz] at hq
        exact absurd hq (by simp)
      · rw [if_neg hsz] at hq
        rw [hE] at hq
        dsimp only at hq
        by_cases ht : r.total_items > 0
        · rw [if_pos ht] at hq
          by_cases hoor : r.total_items > 0 ∧ n > ceilDiv r.total_items size
          · rw [if_pos hoor] at hq
            exact absurd hq (by simp)
          · rw [if_neg hoor] at hq
            have hqq := Except.ok.inj hq
            subst hqq
            exact ⟨rfl, rfl, rfl, rfl, rfl, rfl⟩
        · rw [if_neg ht] at hq
          rw [if_neg (fun hc => ht hc.1)] at hq
          have hqq := Except.ok.inj hq
          subst hqq
          exact ⟨rfl, rfl, rfl, rfl, rfl, rfl⟩

/-- Witness for C7 (amended) at a concrete store. -/
theorem claim_C7_witness :
    (Page.make [wEx] 1 1 1 false false 0).total_pages = 0 ∧
    wPage.items = (Page.make [wEx] 1 1 1 false false 0).items ∧
    wPage.total_items = (Page.make [wEx] 1 1 1 false false 0).total_items :=
  have h := claim_C7 [wRow] 1 1 (Page.make [wEx] 1 1 1 false false 0) (by decide)
  have h2 := h.2 wPage (by decide)
  ⟨h.1, h2.1, h2.2.1⟩

/-- Counterexample to C9 as stated: with a one-row store and an engine whose
`update` raises `EngineFailure`, `Collection.update` returns `false`
(`Except.ok (false, s)`) — the engine error is caught by the surrounding
try/catch and converted to a return value instead of surfacing to the
caller. -/
theorem claim_C9_counterexample :
    collectionUpdate true [wRow] "H" [9] = .ok (false, [wRow]) := by decide

/-- C9 (amended): `update(h, c)` rejects an empty hash, returns `false`
leaving the store unchanged when no card with hash `h` exists, and
otherwise forwards to `engine.update`; any error the engine raises —
including `EngineFailure` — is caught and converted to the return value
`false` (it does not surface), while a successful engine update replaces
the stored bytes and returns `true`. -/
theorem claim_C9 (fail : Bool) (s : EngineState) (h : String) (bs : List Nat)
    (hh : ¬ h = "") :
    (engineGet s h = none → collectionUpdate fail s h bs = .ok (false, s)) ∧
    (∀ ex, engineGet s h = some ex → fail = true →
        collectionUpdate fail s h bs = .ok (false, s)) ∧
    (∀ ex, engineGet s h = some ex → fail = false →
        collectionUpdate fail s h bs =
          .ok (true, s.map fun r => if r.hash = h then { r with content := bs } else r)) := by
  refine ⟨?_, ?_, ?_⟩
  · intro hnone
    unfold collectionUpdate
    rw [if_neg hh, hnone]
  · intro ex hsome hfail
    subst hfail
    unfold collectionUpdate
    rw [if_neg hh, hsome]
    rfl
  · intro ex hsome hfail
    subst hfail
    have hhas : hasHash s h = true := by
      unfold engineGet at hsome
      rcases hfind : s.find? (fun r => r.hash = h) with _ | r
      · rw [hfind] at hsome
        exact absurd hsome (by simp)
      · have hmem := List.mem_of_find?_eq_some hfind
        have hpred := List.find?_some hfind
        unfold hasHash
        rw [List.any_eq_true]
        exact ⟨r, hmem, hpred⟩
    unfold collectionUpdate
    rw [if_neg hh, hsome]
    unfold engineUpdate
    rw [if_neg (by simp), if_pos hhas]

/-- Witness for C9 (amended) at concrete inputs. -/
theorem claim_C9_witness :
    collectionUpdate false [wRow] "X" [9] = .ok (false, [wRow]) ∧
    collectionUpdate true [wRow] "H" [9] = .ok (false, [wRow]) ∧
    collectionUpdate false [wRow] "H" [9] =
      .ok (true, [wRow].map fun r => if r.hash = "H" then { r with content := [9] } else r) :=
  ⟨(claim_C9 false [wRow] "X" [9] (by decide)).1 (by decide),
   (claim_C9 true [wRow] "H" [9] (by decide)).2.1 wEx (by decide) rfl,
   (claim_C9 false [wRow] "H" [9] (by decide)).2.2 wEx (by decide) rfl⟩

/-! ### Lemmas about `collectionAdd` -/

theorem stringData_append_ne_nil (s t : String) (h : s.data ≠ []) :
    (s ++ t).data ≠ [] := by
  cases s with
  | mk ls =>
      cases t with
      | mk lt =>
          show ls ++ lt ≠ []
          simp only [ne_eq, List.append_eq_nil]
          intro hc
          exact h hc.1

theorem utf8Encode_ne_nil (s : String) (h : s.data ≠ []) : utf8Encode s ≠ [] := by
  unfold utf8Encode
  cases hs : s.data with
  | nil => exact absurd hs h
  | cons c cs =>
      simp only [List.flatMap_cons, ne_eq, List.append_eq_nil]
      intro hc
      exact encodeChar_ne_nil c hc.1

theorem dupEvent_data_ne_nil (ex : MCard) : (generateDuplicationEvent ex).data ≠ [] := by
  unfold generateDuplicationEvent
  repeat apply stringData_append_ne_nil
  decide

theorem collisionEvent_data_ne_nil (c ex : MCard) :
    (generateCollisionEvent c ex).data ≠ [] := by
  unfold generateCollisionEvent
  repeat apply stringData_append_ne_nil
  decide

/-- The duplicate event card `CardCollection.add` constructs in the
duplicate branch: the event payload wrapped as a fresh card under the
DEFAULT algorithm. -/
def dupEventCard (ex : MCard) (now : String) : MCard :=
  { content := utf8Encode (generateDuplicationEvent ex)
    hash := hexDigest DEFAULT_ALG (utf8Encode (generateDuplicationEvent ex))
    hash_algorithm := DEFAULT_ALG
    g_time := GTime_stamp_now DEFAULT_ALG now "UTC" }

theorem newCard_dupEvent_ok (ex : MCard) (now : String) :
    newCard (.bytes (utf8Encode (generateDuplicationEvent ex))) DEFAULT_ALG now =
      .ok (dupEventCard ex now) :=
  newCard_bytes_ok _ _ _ (utf8Encode_ne_nil _ (dupEvent_data_ne_nil ex))

theorem hasHash_of_engineGet_some (s : EngineState) (h : String) (ex : MCard)
    (hs : engineGet s h = some ex) : hasHash s h = true := by
  unfold engineGet at hs
  rcases hf : s.find? (fun r => r.hash = h) with _ | r
  · rw [hf] at hs
    exact absurd hs (by simp)
  · have hmem := List.mem_of_find?_eq_some hf
    have hpred := List.find?_some hf
    unfold hasHash
    rw [List.any_eq_true]
    exact ⟨r, hmem, hpred⟩

theorem engineGet_none_of_not_hasHash (s : EngineState) (h : String)
    (hh : hasHash s h = false) : engineGet s h = none := by
  unfold engineGet
  rw [hasHash_false_find_none s h hh]
  rfl

theorem engineAdd_fresh (s : EngineState) (c : MCard)
    (hh : hasHash s c.hash = false) : engineAdd s c = .ok (s ++ [rowOf c]) := by
  unfold engineAdd
  rw [hh]
  rfl

theorem engineAdd_ok_eq (s s1 : EngineState) (c : MCard)
    (h : engineAdd s c = .ok s1) : s1 = s ++ [rowOf c] := by
  unfold engineAdd at h
  split at h
  · exact absurd h (by simp)
  · exact (Except.ok.inj h).symm

theorem engineGet_append_of_some (s : EngineState) (r : Row) (h : String) (ex : MCard)
    (hs : engineGet s h = some ex) : engineGet (s ++ [r]) h = some ex := by
  unfold engineGet at hs ⊢
  rcases hf : s.find? (fun rr => rr.hash = h) with _ | row
  · rw [hf] at hs
    exact absurd hs (by simp)
  · rw [List.find?_append, hf]
    rw [hf] at hs
    simpa using hs

/-- The duplicate branch of `CardCollection.add`: when the stored bytes
equal the incoming bytes, exactly the duplicate event card is appended and
its hash is returned. -/
theorem collectionAdd_duplicate (s : EngineState) (card ex : MCard) (now : String)
    (hget : engineGet s card.hash = some ex)
    (heq : ex.content = card.content)
    (hfresh : hasHash s (dupEventCard ex now).hash = false) :
    collectionAdd s card now =
      (.ok (dupEventCard ex now).hash, s ++ [rowOf (dupEventCard ex now)]) := by
  unfold collectionAdd
  rw [hget]
  dsimp only
  rw [if_pos ((compare_eq_zero_iff ex.content card.content).mpr heq)]
  rw [newCard_dupEvent_ok ex now]
  dsimp only
  rw [engineAdd_fresh s (dupEventCard ex now) hfresh]

theorem stamp_now_ne_empty (alg : HashAlg) (now region : String) :
    GTime_stamp_now alg now region ≠ "" := by
  intro hg
  have h1 : (GTime_stamp_now alg now region).data ≠ [] := by
    unfold GTime_stamp_now
    apply stringData_append_ne_nil
    apply stringData_append_ne_nil
    apply stringData_append_ne_nil
    cases alg <;> decide
  rw [hg] at h1
  exact h1 rfl

/-- C1: when a card's hash is already present with byte-identical content,
`Collection.add` writes exactly one new card — the duplicate event card,
built from the existing card and digested under the DEFAULT algorithm —
leaves the original row unchanged (the new row is appended after it), and
returns the event card's hash, not the incoming card's; consequently, after
`add(c)` then `add(c')` with the same content bytes, the count grows by
exactly 2 and `get(c.hash)` still returns `c`'s bytes. -/
theorem claim_C1 :
    (∀ (s : EngineState) (card ex : MCard) (now : String),
        engineGet s card.hash = some ex →
        ex.content = card.content →
        hasHash s (dupEventCard ex now).hash = false →
        collectionAdd s card now =
          (.ok (dupEventCard ex now).hash, s ++ [rowOf (dupEventCard ex now)]) ∧
        (dupEventCard ex now).hash ≠ card.hash ∧
        engineCount (s ++ [rowOf (dupEventCard ex now)]) = engineCount s + 1) ∧
    (∀ (s : EngineState) (bs : List Nat) (now1 now2 : String) (c c' ex : MCard),
        newCard (.bytes bs) DEFAULT_ALG now1 = .ok c →
        newCard (.bytes bs) DEFAULT_ALG now2 = .ok c' →
        hasHash s c.hash = false →
        engineGet (s ++ [rowOf c]) c.hash = some ex →
        hasHash (s ++ [rowOf c]) (dupEventCard ex now2).hash = false →
        collectionAdd s c now1 = (.ok c.hash, s ++ [rowOf c]) ∧
        collectionAdd (s ++ [rowOf c]) c' now2 =
          (.ok (dupEventCard ex now2).hash,
            s ++ [rowOf c] ++ [rowOf (dupEventCard ex now2)]) ∧
        engineCount (s ++ [rowOf c] ++ [rowOf (dupEventCard ex now2)]) =
          engineCount s + 2 ∧
        (engineGet (s ++ [rowOf c] ++ [rowOf (dupEventCard ex now2)]) c.hash).map
          (fun x => x.content) = some bs) := by
  constructor
  · intro s card ex now hget heq hfresh
    refine ⟨collectionAdd_duplicate s card ex now hget heq hfresh, ?_, ?_⟩
    · intro hcontra
      have h1 := hasHash_of_engineGet_some s card.hash ex hget
      rw [← hcontra] at h1
      rw [h1] at hfresh
      exact absurd hfresh (by simp)
    · unfold engineCount
      simp
  · intro s bs now1 now2 c c' ex hc hc' h0 hget hfresh
    -- unpack the two constructed cards
    have hbs : bs ≠ [] := by
      intro hbs
      subst hbs
      unfold newCard normalizeContent at hc
      exact absurd hc (by simp)
    rw [newCard_bytes_ok bs DEFAULT_ALG now1 hbs] at hc
    rw [newCard_bytes_ok bs DEFAULT_ALG now2 hbs] at hc'
    have hc1 := Except.ok.inj hc
    have hc2 := Except.ok.inj hc'
    subst hc1
    subst hc2
    dsimp only at h0 hget hfresh ⊢
    -- first add: plain insert
    have hins : collectionAdd s
        { content := bs, hash := hexDigest DEFAULT_ALG bs, hash_algorithm := DEFAULT_ALG
          g_time := GTime_stamp_now DEFAULT_ALG now1 "UTC" } now1 =
        (.ok (hexDigest DEFAULT_ALG bs),
          s ++ [rowOf { content := bs, hash := hexDigest DEFAULT_ALG bs
                        hash_algorithm := DEFAULT_ALG
                        g_time := GTime_stamp_now DEFAULT_ALG now1 "UTC" }]) := by
      unfold collectionAdd
      rw [engineGet_none_of_not_hasHash _ _ h0]
      dsimp only
      rw [engineAdd_fresh _ _ h0]
    refine ⟨hins, ?_, ?_, ?_⟩
    · -- second add: duplicate branch
      have hexc : ex.content = bs := by
        rw [engineGet_append_single s _ _ h0] at hget
        dsimp only [rowOf] at hget
        rw [if_pos rfl] at hget
        rw [cardFromRow_ok bs (hexDigest DEFAULT_ALG bs)
          (GTime_stamp_now DEFAULT_ALG now1 "UTC") hbs
          (hexDigest_ne_empty DEFAULT_ALG bs)
          (stamp_now_ne_empty DEFAULT_ALG now1 "UTC")] at hget
        have := Option.some.inj hget
        rw [← this]
      exact collectionAdd_duplicate _ _ ex now2 hget hexc hfresh
    · unfold engineCount
      simp
    · -- get(c.hash) still returns c's bytes
      have hget2 : engineGet (s ++ [rowOf
          { content := bs, hash := hexDigest DEFAULT_ALG bs, hash_algorithm := DEFAULT_ALG
            g_time := GTime_stamp_now DEFAULT_ALG now1 "UTC" }] ++
          [rowOf (dupEventCard ex now2)]) (hexDigest DEFAULT_ALG bs) = some ex :=
        engineGet_append_of_some _ _ _ ex hget
      rw [hget2]
      have hexc : ex.content = bs := by
        rw [engineGet_append_single s _ _ h0] at hget
        dsimp only [rowOf] at hget
        rw [if_pos rfl] at hget
        rw [cardFromRow_ok bs (hexDigest DEFAULT_ALG bs)
          (GTime_stamp_now DEFAULT_ALG now1 "UTC") hbs
          (hexDigest_ne_empty DEFAULT_ALG bs)
          (stamp_now_ne_empty DEFAULT_ALG now1 "UTC")] at hget
        have := Option.some.inj hget
        rw [← this]
      show some ex.content = some bs
      rw [hexc]

/-- The card `new_card("A", sha256)` built at clock `t1`. -/
def wC1c : MCard :=
  { content := [65], hash := hexDigest .sha256 [65], hash_algorithm := .sha256
    g_time := "sha256|t1|UTC" }

/-- The byte-identical card built at clock `t2`. -/
def wC1c' : MCard :=
  { content := [65], hash := hexDigest .sha256 [65], hash_algorithm := .sha256
    g_time := "sha256|t2|UTC" }

/-- The card `engine.get` reconstructs from `wC1c`'s row. -/
def wC1ex : MCard :=
  { content := [65], hash := hexDigest .sha256 [65], hash_algorithm := .sha256
    g_time := "sha256|t1|UTC", contentType := some "application/octet-stream" }

set_option maxRecDepth 20000 in
/-- Witness for C1: the `add(c)`-then-`add(c')` scenario on the empty
store. -/
theorem claim_C1_witness :
    collectionAdd [] wC1c "t1" = (.ok wC1c.hash, [] ++ [rowOf wC1c]) ∧
    collectionAdd ([] ++ [rowOf wC1c]) wC1c' "t2" =
      (.ok (dupEventCard wC1ex "t2").hash,
        [] ++ [rowOf wC1c] ++ [rowOf (dupEventCard wC1ex "t2")]) ∧
    engineCount ([] ++ [rowOf wC1c] ++ [rowOf (dupEventCard wC1ex "t2")]) =
      engineCount ([] : EngineState) + 2 ∧
    (engineGet ([] ++ [rowOf wC1c] ++ [rowOf (dupEventCard wC1ex "t2")]) wC1c.hash).map
      (fun x => x.content) = some [65] :=
  claim_C1.2 [] [65] "t1" "t2" wC1c wC1c' wC1ex (by decide) (by decide) (by decide)
    (by decide) (by decide)

/-- Whether `needle` occurs as a contiguous sublist of `hay` (a plain
substring test, used to state what a payload does and does not
reference). -/
def listInfix (needle hay : List Nat) : Bool :=
  needle.isPrefixOf hay ||
    (match hay with
     | [] => false
     | _ :: t => listInfix needle t)

/-- C2 (amended): when `get(h)` returns a card with bytes `b₁` and `add`
receives a card with the same hash `h` but different bytes `b₂`, and the
incoming card's algorithm has a successor in the hierarchy, `add` stores a
new card built from `b₂` under the upgraded algorithm — whose algorithm
differs from the original and whose digest byte-length strictly exceeds
the original's per the length table — then stores a collision event card
whose payload is built from the incoming (pre-upgrade) and existing cards,
so it references those two cards' algorithms (both the original), not the
upgraded one, and returns the collision event card's hash; starting from
`sha256` the upgrade is `sha384` (48-byte digests) and the row count grows
by 2, so a one-row store then holds 3 rows. -/
theorem claim_C2 :
    (∀ (s : EngineState) (card ex upgCard evCard : MCard) (upgraded : HashAlg)
        (now : String),
        engineGet s card.hash = some ex →
        ex.content ≠ card.content →
        HASH_ALGORITHM_HIERARCHY card.hash_algorithm = some upgraded →
        newCard (.bytes card.content) upgraded now = .ok upgCard →
        newCard (.bytes (utf8Encode (generateCollisionEvent card ex))) DEFAULT_ALG now =
          .ok evCard →
        hasHash s upgCard.hash = false →
        hasHash (s ++ [rowOf upgCard]) evCard.hash = false →
        collectionAdd s card now =
          (.ok evCard.hash, s ++ [rowOf upgCard] ++ [rowOf evCard]) ∧
        upgCard.hash_algorithm = upgraded ∧
        upgCard.content = card.content ∧
        upgCard.hash_algorithm ≠ card.hash_algorithm ∧
        HASH_LENGTHS card.hash_algorithm < HASH_LENGTHS upgCard.hash_algorithm ∧
        evCard.content = utf8Encode (generateCollisionEvent card ex) ∧
        evCard.hash_algorithm = DEFAULT_ALG ∧
        engineCount (s ++ [rowOf upgCard] ++ [rowOf evCard]) = engineCount s + 2) ∧
    (HASH_ALGORITHM_HIERARCHY .sha256 = some .sha384 ∧ HASH_LENGTHS .sha384 = 48) ∧
    (∀ a u : HashAlg, HASH_ALGORITHM_HIERARCHY a = some u →
        HASH_LENGTHS a < HASH_LENGTHS u ∧ u ≠ a) := by
  refine ⟨?_, by decide, fun a u h => hierarchy_strict a u h⟩
  intro s card ex upgCard evCard upgraded now hget hne hup hupn hev hfresh1 hfresh2
  -- unpack the upgraded card
  have hcbs : card.content ≠ [] := by
    intro hc
    rw [hc] at hupn
    unfold newCard normalizeContent at hupn
    exact absurd hupn (by simp)
  rw [newCard_bytes_ok card.content upgraded now hcbs] at hupn
  have hupv := Except.ok.inj hupn
  subst hupv
  -- unpack the event card
  have hevok := newCard_bytes_ok (utf8Encode (generateCollisionEvent card ex)) DEFAULT_ALG
    now (utf8Encode_ne_nil _ (collisionEvent_data_ne_nil card ex))
  rw [hevok] at hev
  have hevv := Except.ok.inj hev
  subst hevv
  have hstrict := hierarchy_strict card.hash_algorithm upgraded hup
  refine ⟨?_, rfl, rfl, hstrict.2, hstrict.1, rfl, rfl, ?_⟩
  · unfold collectionAdd
    rw [hget]
    dsimp only
    rw [if_neg (fun hc => hne ((compare_eq_zero_iff ex.content card.content).mp hc))]
    rw [hup]
    dsimp only
    rw [newCard_bytes_ok card.content upgraded now hcbs]
    dsimp only
    rw [if_neg (show ¬ upgraded = card.hash_algorithm from hstrict.2)]
    rw [if_neg (show ¬ HASH_LENGTHS upgraded ≤ HASH_LENGTHS card.hash_algorithm by omega)]
    rw [engineAdd_fresh s _ hfresh1]
    dsimp only
    rw [hevok]
    dsimp only
    rw [engineAdd_fresh _ _ hfresh2]
  · unfold engineCount
    simp

/-- The upgraded card the collision branch constructs from `wCard`'s bytes
under `sha384`. -/
def wUpg : MCard :=
  { content := [2], hash := hexDigest .sha384 [2], hash_algorithm := .sha384
    g_time := "sha384|t2|UTC" }

/-- The collision event card for the forced collision of `wCard` against
`wEx`. -/
def wEv : MCard :=
  { content := utf8Encode (generateCollisionEvent wCard wEx)
    hash := hexDigest .sha256 (utf8Encode (generateCollisionEvent wCard wEx))
    hash_algorithm := .sha256
    g_time := "sha256|t2|UTC" }

set_option maxRecDepth 20000 in
/-- Counterexample to C2 as stated: in the forced `sha256` collision,
`add` does store the `sha384`-upgraded card and a collision event card, but
the stored event payload — built at `mcard.js` line 285 from the incoming
(pre-upgrade) and existing cards, before the upgraded card exists — names
`sha256` and never the upgraded algorithm `sha384`, so the event card does
not reference both algorithms. -/
theorem claim_C2_counterexample :
    collectionAdd [wRow] wCard "t2" =
      (.ok wEv.hash, [wRow] ++ [rowOf wUpg] ++ [rowOf wEv]) ∧
    wUpg.hash_algorithm = HashAlg.sha384 ∧
    (engineGet ([wRow] ++ [rowOf wUpg] ++ [rowOf wEv]) wEv.hash).map (fun c => c.content) =
      some (utf8Encode (generateCollisionEvent wCard wEx)) ∧
    listInfix (utf8Encode "sha384") (utf8Encode (generateCollisionEvent wCard wEx)) = false ∧
    listInfix (utf8Encode "sha256") (utf8Encode (generateCollisionEvent wCard wEx)) = true := by
  decide

set_option maxRecDepth 20000 in
/-- Witness for C2 (amended): the forced-collision scenario on a one-row
`sha256` store, which ends with 3 rows. -/
theorem claim_C2_witness :
    collectionAdd [wRow] wCard "t2" =
      (.ok wEv.hash, [wRow] ++ [rowOf wUpg] ++ [rowOf wEv]) ∧
    wUpg.hash_algorithm = HashAlg.sha384 ∧
    wUpg.content = wCard.content ∧
    wUpg.hash_algorithm ≠ wCard.hash_algorithm ∧
    HASH_LENGTHS wCard.hash_algorithm < HASH_LENGTHS wUpg.hash_algorithm ∧
    wEv.content = utf8Encode (generateCollisionEvent wCard wEx) ∧
    wEv.hash_algorithm = DEFAULT_ALG ∧
    engineCount ([wRow] ++ [rowOf wUpg] ++ [rowOf wEv]) = engineCount [wRow] + 2 :=
  claim_C2.1 [wRow] wCard wEx wUpg wEv .sha384 "t2" (by decide) (by decide) (by decide)
    (by decide) (by decide) (by decide) (by decide)

/-- C3: whenever `Collection.add` raises an error, no event card has been
written for that ingestion attempt: the engine state is either unchanged,
or — only in the collision branch, after the upgraded content card was
written but before the event card — extended by exactly the upgraded
content card. `NoStrongerAlgorithm` is raised exactly when the collision
branch is reached (stored card present with different bytes) and the
incoming card's algorithm has no stronger successor in the hierarchy;
`UpgradeFailed` only arises in the collision branch when the upgrade does
not yield a different algorithm with strictly larger digest length. -/
theorem claim_C3 (s : EngineState) (card : MCard) (now : String) (err : CollErr)
    (s' : EngineState) (h : collectionAdd s card now = (.error err, s')) :
    (s' = s ∨
      ∃ upgraded upgCard, HASH_ALGORITHM_HIERARCHY card.hash_algorithm = some upgraded ∧
        newCard (.bytes card.content) upgraded now = .ok upgCard ∧
        s' = s ++ [rowOf upgCard]) ∧
    (err = .noStrongerAlgorithm ↔
      ∃ ex, engineGet s card.hash = some ex ∧ ex.content ≠ card.content ∧
        HASH_ALGORITHM_HIERARCHY card.hash_algorithm = none) ∧
    (err = .upgradeFailed →
      ∃ ex upgraded, engineGet s card.hash = some ex ∧ ex.content ≠ card.content ∧
        HASH_ALGORITHM_HIERARCHY card.hash_algorithm = some upgraded ∧
        (upgraded = card.hash_algorithm ∨
          HASH_LENGTHS upgraded ≤ HASH_LENGTHS card.hash_algorithm)) := by
  unfold collectionAdd at h
  rcases hget : engineGet s card.hash with _ | ex
  · -- no stored card: plain insert path
    rw [hget] at h
    dsimp only at h
    rcases hadd : engineAdd s card with e | s1
    · rw [hadd] at h
      simp only [Prod.mk.injEq] at h
      obtain ⟨herr, hs⟩ := h
      have he := Except.error.inj herr
      refine ⟨Or.inl hs.symm, ?_, ?_⟩
      · constructor
        · intro hc
          rw [hc] at he
          exact absurd he (by simp)
        · rintro ⟨ex, hex, -⟩
          exact absurd hex (by simp)
      · intro hc
        rw [hc] at he
        exact absurd he (by simp)
    · rw [hadd] at h
      simp only [Prod.mk.injEq] at h
      exact absurd h.1 (by simp)
  · rw [hget] at h
    dsimp only at h
    by_cases hcmp : SafeBuffer_compare ex.content card.content = 0
    · -- duplicate branch
      rw [if_pos hcmp] at h
      rw [newCard_dupEvent_ok ex now] at h
      dsimp only at h
      rcases hadd : engineAdd s (dupEventCard ex now) with e | s1
      · rw [hadd] at h
        simp only [Prod.mk.injEq] at h
        obtain ⟨herr, hs⟩ := h
        have he := Except.error.inj herr
        refine ⟨Or.inl hs.symm, ?_, ?_⟩
        · constructor
          · intro hc
            rw [hc] at he
            exact absurd he (by simp)
          · rintro ⟨ex2, hex2, hne2, -⟩
            have hexeq := Option.some.inj hex2
            subst hexeq
            exact absurd ((compare_eq_zero_iff _ _).mp hcmp) hne2
        · intro hc
          rw [hc] at he
          exact absurd he (by simp)
      · rw [hadd] at h
        simp only [Prod.mk.injEq] at h
        exact absurd h.1 (by simp)
    · -- collision branch
      rw [if_neg hcmp] at h
      have hne : ex.content ≠ card.content :=
        fun hc => hcmp ((compare_eq_zero_iff _ _).mpr hc)
      rcases hup : HASH_ALGORITHM_HIERARCHY card.hash_algorithm with _ | upgraded
      · rw [hup] at h
        simp only [Prod.mk.injEq] at h
        obtain ⟨herr, hs⟩ := h
        have he := Except.error.inj herr
        refine ⟨Or.inl hs.symm, ?_, ?_⟩
        · constructor
          · intro _
            exact ⟨ex, rfl, hne, rfl⟩
          · intro _
            exact he.symm
        · intro hc
          rw [hc] at he
          exact absurd he (by simp)
      · rw [hup] at h
        dsimp only at h
        rcases hnc : newCard (.bytes card.content) upgraded now with e | upgCard
        · rw [hnc] at h
          simp only [Prod.mk.injEq] at h
          obtain ⟨herr, hs⟩ := h
          have he := Except.error.inj herr
          refine ⟨Or.inl hs.symm, ?_, ?_⟩
          · constructor
            · intro hc
              rw [hc] at he
              exact absurd he (by simp)
            · rintro ⟨ex2, hex2, hne2, hnone⟩
              exact absurd hnone (by simp)
          · intro hc
            rw [hc] at he
            exact absurd he (by simp)
        · rw [hnc] at h
          dsimp only at h
          -- the upgraded card's fields
          have hcbs : card.content ≠ [] := by
            intro hc
            rw [hc] at hnc
            unfold newCard normalizeContent at hnc
            exact absurd hnc (by simp)
          have hnc2 := hnc
          rw [newCard_bytes_ok card.content upgraded now hcbs] at hnc2
          have hupv := Except.ok.inj hnc2
          by_cases hchk1 : upgCard.hash_algorithm = card.hash_algorithm
          · rw [if_pos hchk1] at h
            simp only [Prod.mk.injEq] at h
            obtain ⟨herr, hs⟩ := h
            have he := Except.error.inj herr
            refine ⟨Or.inl hs.symm, ?_, ?_⟩
            · constructor
              · intro hc
                rw [hc] at he
                exact absurd he (by simp)
              · rintro ⟨ex2, hex2, hne2, hnone⟩
                exact absurd hnone (by simp)
            · intro _
              refine ⟨ex, upgraded, rfl, hne, rfl, Or.inl ?_⟩
              rw [← hchk1, ← hupv]
          · rw [if_neg hchk1] at h
            by_cases hchk2 : HASH_LENGTHS upgraded ≤ HASH_LENGTHS card.hash_algorithm
            · rw [if_pos hchk2] at h
              simp only [Prod.mk.injEq] at h
              obtain ⟨herr, hs⟩ := h
              have he := Except.error.inj herr
              refine ⟨Or.inl hs.symm, ?_, ?_⟩
              · constructor
                · intro hc
                  rw [hc] at he
                  exact absurd he (by simp)
                · rintro ⟨ex2, hex2, hne2, hnone⟩
                  exact absurd hnone (by simp)
              · intro _
                exact ⟨ex, upgraded, rfl, hne, rfl, Or.inr hchk2⟩
            · rw [if_neg hchk2] at h
              rcases hadd : engineAdd s upgCard with e | s1
              · rw [hadd] at h
                simp only [Prod.mk.injEq] at h
                obtain ⟨herr, hs⟩ := h
                have he := Except.error.inj herr
                refine ⟨Or.inl hs.symm, ?_, ?_⟩
                · constructor
                  · intro hc
                    rw [hc] at he
                    exact absurd he (by simp)
                  · rintro ⟨ex2, hex2, hne2, hnone⟩
                    exact absurd hnone (by simp)
                · intro hc
                  rw [hc] at he
                  exact absurd he (by simp)
              · rw [hadd] at h
                dsimp only at h
                have hs1 : s1 = s ++ [rowOf upgCard] := engineAdd_ok_eq s s1 upgCard hadd
                rcases hev : newCard (.bytes (utf8Encode
                    (generateCollisionEvent card ex))) DEFAULT_ALG now with e | evCard
                · rw [hev] at h
                  simp only [Prod.mk.injEq] at h
                  obtain ⟨herr, hs⟩ := h
                  have he := Except.error.inj herr
                  refine ⟨Or.inr ⟨upgraded, upgCard, rfl, hnc, by rw [← hs, hs1]⟩,
                    ?_, ?_⟩
                  · constructor
                    · intro hc
                      rw [hc] at he
                      exact absurd he (by simp)
                    · rintro ⟨ex2, hex2, hne2, hnone⟩
                      exact absurd hnone (by simp)
                  · intro hc
                    rw [hc] at he
                    exact absurd he (by simp)
                · rw [hev] at h
                  dsimp only at h
                  rcases hadd2 : engineAdd s1 evCard with e | s2
                  · rw [hadd2] at h
                    simp only [Prod.mk.injEq] at h
                    obtain ⟨herr, hs⟩ := h
                    have he := Except.error.inj herr
                    refine ⟨Or.inr ⟨upgraded, upgCard, rfl, hnc, by rw [← hs, hs1]⟩,
                      ?_, ?_⟩
                    · constructor
                      · intro hc
                        rw [hc] at he
                        exact absurd he (by simp)
                      · rintro ⟨ex2, hex2, hne2, hnone⟩
                        exact absurd hnone (by simp)
                    · intro hc
                      rw [hc] at he
                      exact absurd he (by simp)
                  · rw [hadd2] at h
                    simp only [Prod.mk.injEq] at h
                    exact absurd h.1 (by simp)

/-- The incoming forced-collision card under the strongest algorithm
`sha512`, for which no upgrade exists. -/
def w512card : MCard :=
  { content := [2], hash := "H", hash_algorithm := .sha512
    g_time := "sha512|t1|UTC" }

/-- A stored row under `sha512` sharing `w512card`'s hash with different
bytes. -/
def w512row : Row := { hash := "H", g_time := "sha512|t0|UTC", content := [1] }

/-- Witness for C3: a forced collision at `sha512` raises
`NoStrongerAlgorithm` and leaves the store unchanged — no event card is
written. -/
theorem claim_C3_witness :
    ([w512row] = ([w512row] : EngineState) ∨
      ∃ upgraded upgCard, HASH_ALGORITHM_HIERARCHY w512card.hash_algorithm = some upgraded ∧
        newCard (.bytes w512card.content) upgraded "t1" = .ok upgCard ∧
        [w512row] = [w512row] ++ [rowOf upgCard]) ∧
    (CollErr.noStrongerAlgorithm = CollErr.noStrongerAlgorithm ↔
      ∃ ex, engineGet [w512row] w512card.hash = some ex ∧ ex.content ≠ w512card.content ∧
        HASH_ALGORITHM_HIERARCHY w512card.hash_algorithm = none) ∧
    (CollErr.noStrongerAlgorithm = CollErr.upgradeFailed →
      ∃ ex upgraded, engineGet [w512row] w512card.hash = some ex ∧
        ex.content ≠ w512card.content ∧
        HASH_ALGORITHM_HIERARCHY w512card.hash_algorithm = some upgraded ∧
        (upgraded = w512card.hash_algorithm ∨
          HASH_LENGTHS upgraded ≤ HASH_LENGTHS w512card.hash_algorithm)) :=
  claim_C3 [w512row] w512card "t1" .noStrongerAlgorithm [w512row] (by decide)

end MCardJS
